import Mathlib

/-!
Verification of the protobuf byte-editing core of the topoo-gateway
repository (`src-tauri/src/utils/protobuf.rs`, `src-tauri/src/modules/db.rs`,
`src-tauri/src/modules/oauth_server.rs`).

Buffers are modelled as `List Nat` (each entry a byte value); `u64`
arithmetic is modelled with explicit `% 2 ^ 64`.  A fallible Rust function
returning `Result<T, String>` is modelled as `RRes T`; the extra
constructor `RRes.crash` marks executions on which the Rust code panics
(an out-of-bounds slice index, or a `<<` whose shift amount reaches the
bit width under overflow checks) instead of returning a value.
-/

/-- Outcome of a Rust computation: `Ok`, `Err`, or a panic (`crash`). -/
inductive RRes (α : Type) : Type where
  | ok (a : α) : RRes α
  | err (e : String) : RRes α
  | crash : RRes α
deriving DecidableEq, Repr

/-- Loop body of `read_varint` (protobuf.rs lines 15-34): `result` is the
`u64` accumulator, `shift` the current shift amount.  The source statement
`result |= ((byte & 0x7F) as u64) << shift` is modelled with an explicit
`% 2 ^ 64`; when `shift` has reached 64 the Rust shift overflows (a panic
under overflow checks), modelled as `crash`. -/
def readVarintLoop (data : List Nat) (pos result shift : Nat) : RRes (Nat × Nat) :=
  if _h : pos < data.length then
    if 64 ≤ shift then .crash
    else
      if data.getD pos 0 &&& 128 = 0 then
        .ok (result ||| (((data.getD pos 0 &&& 127) <<< shift) % 2 ^ 64), pos + 1)
      else
        readVarintLoop data (pos + 1)
          (result ||| (((data.getD pos 0 &&& 127) <<< shift) % 2 ^ 64)) (shift + 7)
  else .err "incomplete_data"
termination_by data.length - pos

/-- `read_varint(data, offset)` from protobuf.rs lines 15-34. -/
def readVarint (data : List Nat) (offset : Nat) : RRes (Nat × Nat) :=
  readVarintLoop data offset 0 0

/-- `encode_varint(value)` from protobuf.rs lines 4-12: emit 7-bit groups
LSB first, continuation bit `0x80` on all but the final byte. -/
def encodeVarint (value : Nat) : List Nat :=
  if value < 128 then [value]
  else ((value &&& 127) ||| 128) :: encodeVarint (value >>> 7)
termination_by value
decreasing_by
  simp only [Nat.shiftRight_eq_div_pow]
  omega

/-- `skip_field(data, offset, wire_type)` from protobuf.rs lines 37-59.
The Rust `match` on the integer `wire_type` is rendered as a chain of
equality tests; `?` on `read_varint` propagates errors (and panics). -/
def skipField (data : List Nat) (offset : Nat) (wireType : Nat) : RRes Nat :=
  if wireType = 0 then
    match readVarint data offset with
    | .ok (_, newOffset) => .ok newOffset
    | .err e => .err e
    | .crash => .crash
  else if wireType = 1 then .ok (offset + 8)
  else if wireType = 2 then
    match readVarint data offset with
    | .ok (length, contentOffset) => .ok (contentOffset + length)
    | .err e => .err e
    | .crash => .crash
  else if wireType = 5 then .ok (offset + 4)
  else .err ("unknown_wire_type: " ++ toString wireType)

/-! ### Bit-level helper lemmas -/

theorem and127_eq_mod (a : Nat) : a &&& 127 = a % 128 := by
  have h := Nat.and_pow_two_sub_one_eq_mod a 7
  norm_num at h
  exact h

theorem and128_eq_zero_of_lt {a : Nat} (h : a < 128) : a &&& 128 = 0 := by
  have h2 : (128 : Nat) = 2 ^ 7 := by norm_num
  rw [h2, Nat.and_two_pow, Nat.testBit_lt_two_pow (by omega : a < 2 ^ 7)]
  simp

theorem lor128_and128_ne_zero (a : Nat) : (a ||| 128) &&& 128 ≠ 0 := by
  intro hz
  have h7 := congrArg (fun x => x.testBit 7) hz
  simp [Nat.testBit_and, Nat.testBit_or,
    show Nat.testBit 128 7 = true from by decide] at h7

theorem lor128_and127 (a : Nat) : (a ||| 128) &&& 127 = a &&& 127 := by
  rw [Nat.and_distrib_right, show (128 : Nat) &&& 127 = 0 from by decide]
  simp

theorem testBit_add_mul_two_pow {r : Nat} (m s j : Nat) (h : r < 2 ^ s) :
    (r + m * 2 ^ s).testBit j = if j < s then r.testBit j else m.testBit (j - s) := by
  by_cases hj : j < s
  · rw [if_pos hj, Nat.testBit_to_div_mod, Nat.testBit_to_div_mod]
    congr 1
    have hsplit : (2 : Nat) ^ s = 2 ^ j * 2 ^ (s - j) := by
      rw [← pow_add]
      congr 1
      omega
    have e1 : r + m * 2 ^ s = r + 2 ^ j * (m * 2 ^ (s - j)) := by
      rw [hsplit]; ring
    rw [e1, Nat.add_mul_div_left _ _ (Nat.two_pow_pos j)]
    have e2 : m * 2 ^ (s - j) = m * 2 ^ (s - j - 1) * 2 := by
      have h2 : (2 : Nat) ^ (s - j) = 2 ^ (s - j - 1) * 2 := by
        rw [← pow_succ]
        congr 1
        omega
      rw [h2]; ring
    rw [e2, Nat.add_mul_mod_self_right]
  · rw [if_neg hj, Nat.testBit_to_div_mod, Nat.testBit_to_div_mod]
    congr 1
    have hsplit : (2 : Nat) ^ j = 2 ^ s * 2 ^ (j - s) := by
      rw [← pow_add]
      congr 1
      omega
    rw [hsplit, ← Nat.div_div_eq_div_mul]
    have e1 : (r + m * 2 ^ s) / 2 ^ s = m := by
      rw [mul_comm, Nat.add_mul_div_left _ _ (Nat.two_pow_pos s),
        Nat.div_eq_of_lt h]
      omega
    rw [e1]

theorem lor_shiftLeft_eq_add {r : Nat} (m s : Nat) (h : r < 2 ^ s) :
    r ||| m <<< s = r + m * 2 ^ s := by
  apply Nat.eq_of_testBit_eq
  intro j
  rw [Nat.testBit_or, Nat.testBit_shiftLeft, testBit_add_mul_two_pow m s j h]
  by_cases hj : j < s
  · simp [hj, Nat.not_le.mpr hj]
  · have hr : r.testBit j = false :=
      Nat.testBit_lt_two_pow
        (lt_of_lt_of_le h (Nat.pow_le_pow_right (by norm_num) (by omega)))
    simp [hj, hr, Nat.not_lt.mp hj]

theorem lor_mul_two_pow_eq_add {r : Nat} (m s : Nat) (h : r < 2 ^ s) :
    r ||| m * 2 ^ s = r + m * 2 ^ s := by
  have h2 := lor_shiftLeft_eq_add m s h
  rw [Nat.shiftLeft_eq] at h2
  exact h2

/-! ### Locality lemmas for `readVarintLoop` -/

/-- Shift the offset inside an `ok` result; errors and crashes unchanged. -/
def resShift (k : Nat) : RRes (Nat × Nat) → RRes (Nat × Nat)
  | .ok (v, p) => .ok (v, k + p)
  | .err e => .err e
  | .crash => .crash

theorem readVarintLoop_ok_bounds (data : List Nat) (pos r s : Nat) :
    ∀ v p, readVarintLoop data pos r s = .ok (v, p) → pos < p ∧ p ≤ data.length := by
  induction pos, r, s using readVarintLoop.induct data with
  | case1 pos r s hlt hs =>
    intro v p h
    rw [readVarintLoop] at h
    simp [hlt, hs] at h
  | case2 pos r s hlt hs hterm =>
    intro v p h
    rw [readVarintLoop] at h
    simp only [hlt, dif_pos, if_neg hs, if_pos hterm] at h
    cases h
    omega
  | case3 pos r s hlt hs hcont ih =>
    intro v p h
    rw [readVarintLoop] at h
    simp only [hlt, dif_pos, if_neg hs, if_neg hcont] at h
    have := ih v p h
    omega
  | case4 pos r s hge =>
    intro v p h
    rw [readVarintLoop] at h
    simp [hge] at h

theorem getD_append_right (pre data : List Nat) (pos : Nat) :
    (pre ++ data).getD (pre.length + pos) 0 = data.getD pos 0 := by
  simp [List.getD_eq_getElem?_getD, List.getElem?_append_right (by omega : pre.length ≤ pre.length + pos)]

theorem getD_append_left (data suf : List Nat) (pos : Nat) (h : pos < data.length) :
    (data ++ suf).getD pos 0 = data.getD pos 0 := by
  simp [List.getD_eq_getElem?_getD, List.getElem?_append_left h]

theorem getD_take (data : List Nat) (n pos : Nat) (h : pos < n) :
    (data.take n).getD pos 0 = data.getD pos 0 := by
  simp [List.getD_eq_getElem?_getD, List.getElem?_take, h]

theorem readVarintLoop_append_left (pre data : List Nat) (pos r s : Nat) :
    readVarintLoop (pre ++ data) (pre.length + pos) r s
      = resShift pre.length (readVarintLoop data pos r s) := by
  induction pos, r, s using readVarintLoop.induct data with
  | case1 pos r s hlt hs =>
    have hlt' : pre.length + pos < (pre ++ data).length := by simp; omega
    conv_lhs => rw [readVarintLoop]
    conv_rhs => rw [readVarintLoop]
    simp [hlt, hlt', hs, resShift]
  | case2 pos r s hlt hs hterm =>
    have hlt' : pre.length + pos < (pre ++ data).length := by simp; omega
    conv_lhs => rw [readVarintLoop]
    conv_rhs => rw [readVarintLoop]
    rw [getD_append_right pre data pos]
    simp only [dif_pos hlt', dif_pos hlt, if_neg hs, if_pos hterm, resShift]
    rw [Nat.add_assoc]
  | case3 pos r s hlt hs hcont ih =>
    have hlt' : pre.length + pos < (pre ++ data).length := by simp; omega
    conv_lhs => rw [readVarintLoop]
    conv_rhs => rw [readVarintLoop]
    rw [getD_append_right pre data pos]
    simp only [dif_pos hlt', dif_pos hlt, if_neg hs, if_neg hcont]
    rw [show pre.length + pos + 1 = pre.length + (pos + 1) from by omega]
    exact ih
  | case4 pos r s hge =>
    have hge' : ¬ pre.length + pos < (pre ++ data).length := by simp; omega
    conv_lhs => rw [readVarintLoop]
    conv_rhs => rw [readVarintLoop]
    simp [hge, hge', resShift]

theorem readVarintLoop_append_right (data suf : List Nat) (pos r s : Nat) :
    ∀ v p, readVarintLoop data pos r s = .ok (v, p) →
      readVarintLoop (data ++ suf) pos r s = .ok (v, p) := by
  induction pos, r, s using readVarintLoop.induct data with
  | case1 pos r s hlt hs =>
    intro v p h
    rw [readVarintLoop] at h
    simp [hlt, hs] at h
  | case2 pos r s hlt hs hterm =>
    intro v p h
    rw [readVarintLoop] at h
    simp only [dif_pos hlt, if_neg hs, if_pos hterm] at h
    have hlt' : pos < (data ++ suf).length := by simp; omega
    rw [readVarintLoop]
    rw [getD_append_left data suf pos hlt]
    simp only [dif_pos hlt', if_neg hs, if_pos hterm]
    exact h
  | case3 pos r s hlt hs hcont ih =>
    intro v p h
    rw [readVarintLoop] at h
    simp only [dif_pos hlt, if_neg hs, if_neg hcont] at h
    have hlt' : pos < (data ++ suf).length := by simp; omega
    rw [readVarintLoop]
    rw [getD_append_left data suf pos hlt]
    simp only [dif_pos hlt', if_neg hs, if_neg hcont]
    exact ih v p h
  | case4 pos r s hge =>
    intro v p h
    rw [readVarintLoop] at h
    simp [hge] at h

theorem readVarintLoop_take (data : List Nat) (n : Nat) (pos r s : Nat) :
    ∀ v p, readVarintLoop data pos r s = .ok (v, p) → p ≤ n →
      readVarintLoop (data.take n) pos r s = .ok (v, p) := by
  induction pos, r, s using readVarintLoop.induct data with
  | case1 pos r s hlt hs =>
    intro v p h
    rw [readVarintLoop] at h
    simp [hlt, hs] at h
  | case2 pos r s hlt hs hterm =>
    intro v p h hn
    rw [readVarintLoop] at h
    simp only [dif_pos hlt, if_neg hs, if_pos hterm] at h
    have hp : p = pos + 1 := by cases h; rfl
    have hlt' : pos < (data.take n).length := by
      simp [List.length_take]; omega
    rw [readVarintLoop]
    rw [getD_take data n pos (by omega)]
    simp only [dif_pos hlt', if_neg hs, if_pos hterm]
    exact h
  | case3 pos r s hlt hs hcont ih =>
    intro v p h hn
    rw [readVarintLoop] at h
    simp only [dif_pos hlt, if_neg hs, if_neg hcont] at h
    have hb := readVarintLoop_ok_bounds data (pos + 1) _ _ v p h
    have hlt' : pos < (data.take n).length := by
      simp [List.length_take]; omega
    rw [readVarintLoop]
    rw [getD_take data n pos (by omega)]
    simp only [dif_pos hlt', if_neg hs, if_neg hcont]
    exact ih v p h hn
  | case4 pos r s hge =>
    intro v p h
    rw [readVarintLoop] at h
    simp [hge] at h

/-! ### `readVarint` and `skipField` locality -/

theorem resShift_eq_ok {k : Nat} {x : RRes (Nat × Nat)} {v p : Nat}
    (h : resShift k x = .ok (v, p)) : ∃ p', x = .ok (v, p') ∧ p = k + p' := by
  cases x with
  | ok a =>
    obtain ⟨v', p'⟩ := a
    simp [resShift] at h
    exact ⟨p', by simp [h.1, h.2]⟩
  | err e => simp [resShift] at h
  | crash => simp [resShift] at h

theorem readVarint_ok_bounds {data : List Nat} {off v p : Nat}
    (h : readVarint data off = .ok (v, p)) : off < p ∧ p ≤ data.length :=
  readVarintLoop_ok_bounds data off 0 0 v p h

theorem readVarint_shift (pre data : List Nat) (off : Nat) :
    readVarint (pre ++ data) (pre.length + off) = resShift pre.length (readVarint data off) :=
  readVarintLoop_append_left pre data off 0 0

theorem readVarint_append_right {data : List Nat} (suf : List Nat) {off v p : Nat}
    (h : readVarint data off = .ok (v, p)) : readVarint (data ++ suf) off = .ok (v, p) :=
  readVarintLoop_append_right data suf off 0 0 v p h

theorem readVarint_take {data : List Nat} {n off v p : Nat}
    (h : readVarint data off = .ok (v, p)) (hn : p ≤ n) :
    readVarint (data.take n) off = .ok (v, p) :=
  readVarintLoop_take data n off 0 0 v p h hn

theorem readVarint_drop {data : List Nat} {start off v p : Nat}
    (h : readVarint data off = .ok (v, p)) (hs : start ≤ off) :
    readVarint (data.drop start) (off - start) = .ok (v, p - start) := by
  have hb := readVarint_ok_bounds h
  have hsl : start ≤ data.length := by omega
  have hlen : (data.take start).length = start := by simp; omega
  have heq := readVarint_shift (data.take start) (data.drop start) (off - start)
  rw [hlen, List.take_append_drop,
    show start + (off - start) = off from by omega, h] at heq
  obtain ⟨p', hp', hpp⟩ := resShift_eq_ok heq.symm
  have hp : p' = p - start := by omega
  rw [hp', hp]

/-- Shift the offset inside an `ok` offset result. -/
def resShiftN (k : Nat) : RRes Nat → RRes Nat
  | .ok n => .ok (k + n)
  | .err e => .err e
  | .crash => .crash

theorem resShiftN_eq_ok {k : Nat} {x : RRes Nat} {r : Nat}
    (h : resShiftN k x = .ok r) : ∃ r', x = .ok r' ∧ r = k + r' := by
  cases x with
  | ok a => simp [resShiftN] at h; exact ⟨a, rfl, h.symm⟩
  | err e => simp [resShiftN] at h
  | crash => simp [resShiftN] at h

theorem skipField_ok_gt {data : List Nat} {off w r : Nat}
    (h : skipField data off w = .ok r) : off < r := by
  by_cases h0 : w = 0
  · rw [skipField, if_pos h0] at h
    cases hrv : readVarint data off with
    | ok a =>
      obtain ⟨v, p⟩ := a
      rw [hrv] at h
      simp at h
      have := readVarint_ok_bounds hrv
      omega
    | err e => rw [hrv] at h; simp at h
    | crash => rw [hrv] at h; simp at h
  · by_cases h1 : w = 1
    · rw [skipField, if_neg h0, if_pos h1] at h
      simp at h
      omega
    · by_cases h2 : w = 2
      · rw [skipField, if_neg h0, if_neg h1, if_pos h2] at h
        cases hrv : readVarint data off with
        | ok a =>
          obtain ⟨l, co⟩ := a
          rw [hrv] at h
          simp at h
          have := readVarint_ok_bounds hrv
          omega
        | err e => rw [hrv] at h; simp at h
        | crash => rw [hrv] at h; simp at h
      · by_cases h5 : w = 5
        · rw [skipField, if_neg h0, if_neg h1, if_neg h2, if_pos h5] at h
          simp at h
          omega
        · rw [skipField, if_neg h0, if_neg h1, if_neg h2, if_neg h5] at h
          simp at h

theorem skipField_shift (pre data : List Nat) (off w : Nat) :
    skipField (pre ++ data) (pre.length + off) w
      = resShiftN pre.length (skipField data off w) := by
  by_cases h0 : w = 0
  · rw [skipField, skipField, if_pos h0, if_pos h0]
    rw [readVarint_shift pre data off]
    cases readVarint data off with
    | ok a => obtain ⟨v, p⟩ := a; simp [resShift, resShiftN]
    | err e => simp [resShift, resShiftN]
    | crash => simp [resShift, resShiftN]
  · by_cases h1 : w = 1
    · rw [skipField, skipField, if_neg h0, if_neg h0, if_pos h1, if_pos h1]
      simp [resShiftN]
      omega
    · by_cases h2 : w = 2
      · rw [skipField, skipField, if_neg h0, if_neg h0, if_neg h1, if_neg h1,
          if_pos h2, if_pos h2]
        rw [readVarint_shift pre data off]
        cases readVarint data off with
        | ok a =>
          obtain ⟨l, co⟩ := a
          simp [resShift, resShiftN]
          omega
        | err e => simp [resShift, resShiftN]
        | crash => simp [resShift, resShiftN]
      · by_cases h5 : w = 5
        · rw [skipField, skipField, if_neg h0, if_neg h0, if_neg h1, if_neg h1,
            if_neg h2, if_neg h2, if_pos h5, if_pos h5]
          simp [resShiftN]
          omega
        · rw [skipField, skipField, if_neg h0, if_neg h0, if_neg h1, if_neg h1,
            if_neg h2, if_neg h2, if_neg h5, if_neg h5]
          simp [resShiftN]

theorem skipField_append_right {data : List Nat} (suf : List Nat) {off w r : Nat}
    (h : skipField data off w = .ok r) :
    skipField (data ++ suf) off w = .ok r := by
  by_cases h0 : w = 0
  · rw [skipField, if_pos h0] at h ⊢
    cases hrv : readVarint data off with
    | ok a =>
      obtain ⟨v, p⟩ := a
      rw [hrv] at h
      rw [readVarint_append_right suf hrv]
      exact h
    | err e => rw [hrv] at h; simp at h
    | crash => rw [hrv] at h; simp at h
  · by_cases h1 : w = 1
    · rw [skipField, if_neg h0, if_pos h1] at h ⊢
      exact h
    · by_cases h2 : w = 2
      · rw [skipField, if_neg h0, if_neg h1, if_pos h2] at h ⊢
        cases hrv : readVarint data off with
        | ok a =>
          obtain ⟨l, co⟩ := a
          rw [hrv] at h
          rw [readVarint_append_right suf hrv]
          exact h
        | err e => rw [hrv] at h; simp at h
        | crash => rw [hrv] at h; simp at h
      · by_cases h5 : w = 5
        · rw [skipField, if_neg h0, if_neg h1, if_neg h2, if_pos h5] at h ⊢
          exact h
        · rw [skipField, if_neg h0, if_neg h1, if_neg h2, if_neg h5] at h
          simp at h

theorem skipField_take {data : List Nat} {n off w r : Nat}
    (h : skipField data off w = .ok r) (hn : r ≤ n) :
    skipField (data.take n) off w = .ok r := by
  by_cases h0 : w = 0
  · rw [skipField, if_pos h0] at h ⊢
    cases hrv : readVarint data off with
    | ok a =>
      obtain ⟨v, p⟩ := a
      rw [hrv] at h
      simp at h
      rw [readVarint_take hrv (by omega)]
      simp [h]
    | err e => rw [hrv] at h; simp at h
    | crash => rw [hrv] at h; simp at h
  · by_cases h1 : w = 1
    · rw [skipField, if_neg h0, if_pos h1] at h ⊢
      exact h
    · by_cases h2 : w = 2
      · rw [skipField, if_neg h0, if_neg h1, if_pos h2] at h ⊢
        cases hrv : readVarint data off with
        | ok a =>
          obtain ⟨l, co⟩ := a
          rw [hrv] at h
          simp at h
          rw [readVarint_take hrv (by omega)]
          simp [h]
        | err e => rw [hrv] at h; simp at h
        | crash => rw [hrv] at h; simp at h
      · by_cases h5 : w = 5
        · rw [skipField, if_neg h0, if_neg h1, if_neg h2, if_pos h5] at h ⊢
          exact h
        · rw [skipField, if_neg h0, if_neg h1, if_neg h2, if_neg h5] at h
          simp at h

theorem skipField_drop {data : List Nat} {start off w r : Nat}
    (h : skipField data off w = .ok r) (hs : start ≤ off) (hsl : start ≤ data.length) :
    skipField (data.drop start) (off - start) w = .ok (r - start) := by
  have hlen : (data.take start).length = start := by simp; omega
  have heq := skipField_shift (data.take start) (data.drop start) (off - start) w
  rw [hlen, List.take_append_drop,
    show start + (off - start) = off from by omega, h] at heq
  obtain ⟨r', hr', hrr⟩ := resShiftN_eq_ok heq.symm
  have hr : r' = r - start := by omega
  rw [hr', hr]

/-! ### The message editor: `remove_field` and `find_field` -/

/-- The Rust slice expression `&data[s..e]`. -/
def sliceBytes (data : List Nat) (s e : Nat) : List Nat :=
  (data.drop s).take (e - s)

/-- Loop of `remove_field` (protobuf.rs lines 62-84).  `acc` is the `result`
vector.  The slice `&data[start_offset..next_offset]` panics when
`next_offset` exceeds the buffer length, modelled by the bounds check
yielding `crash`.  Rust computes `(tag >> 3) as u32` (hence `% 2 ^ 32`) and
`(tag & 7) as u8`. -/
def removeFieldLoop (data : List Nat) (fieldNum : Nat) (offset : Nat) (acc : List Nat) :
    RRes (List Nat) :=
  if _hlt : offset < data.length then
    match hv : readVarint data offset with
    | .err e => .err e
    | .crash => .crash
    | .ok (tag, newOffset) =>
      if (tag >>> 3) % 2 ^ 32 = fieldNum then
        match hs : skipField data newOffset (tag &&& 7) with
        | .err e => .err e
        | .crash => .crash
        | .ok nextOffset => removeFieldLoop data fieldNum nextOffset acc
      else
        match hs : skipField data newOffset (tag &&& 7) with
        | .err e => .err e
        | .crash => .crash
        | .ok nextOffset =>
          if nextOffset ≤ data.length then
            removeFieldLoop data fieldNum nextOffset
              (acc ++ sliceBytes data offset nextOffset)
          else .crash
  else .ok acc
termination_by data.length - offset
decreasing_by
  all_goals
    have h1 := readVarint_ok_bounds hv
    have h2 := skipField_ok_gt hs
    omega

/-- `remove_field(data, field_num)` from protobuf.rs lines 62-84. -/
def removeField (data : List Nat) (fieldNum : Nat) : RRes (List Nat) :=
  removeFieldLoop data fieldNum 0 []

/-- Loop of `find_field` (protobuf.rs lines 87-111).  A failed tag read
`break`s out of the loop (giving `Ok(None)`); the length read for a
matching field and `skip_field` propagate their errors via `?`; the slice
`data[content_offset..content_offset + length]` panics when it runs past
the end of the buffer. -/
def findFieldLoop (data : List Nat) (targetField : Nat) (offset : Nat) :
    RRes (Option (List Nat)) :=
  if _hlt : offset < data.length then
    match hv : readVarint data offset with
    | .err _ => .ok none
    | .crash => .crash
    | .ok (tag, newOffset) =>
      if (tag >>> 3) % 2 ^ 32 = targetField ∧ tag &&& 7 = 2 then
        match readVarint data newOffset with
        | .err e => .err e
        | .crash => .crash
        | .ok (length, contentOffset) =>
          if contentOffset + length ≤ data.length then
            .ok (some (sliceBytes data contentOffset (contentOffset + length)))
          else .crash
      else
        match hs : skipField data newOffset (tag &&& 7) with
        | .err e => .err e
        | .crash => .crash
        | .ok nextOffset => findFieldLoop data targetField nextOffset
  else .ok none
termination_by data.length - offset
decreasing_by
  all_goals
    have h1 := readVarint_ok_bounds hv
    have h2 := skipField_ok_gt hs
    omega

/-- `find_field(data, target_field)` from protobuf.rs lines 87-111. -/
def findField (data : List Nat) (targetField : Nat) : RRes (Option (List Nat)) :=
  findFieldLoop data targetField 0

/-! ### Well-formed field occurrences -/

/-- `bytes` is the complete encoding of one field occurrence with field
number `num`: a readable tag varint whose decoded (`as u32`) field number
is `num`, followed by a payload that `skip_field` consumes exactly to the
end of `bytes`. -/
def ValidOcc (num : Nat) (bytes : List Nat) : Prop :=
  ∃ tag p, readVarint bytes 0 = .ok (tag, p) ∧ (tag >>> 3) % 2 ^ 32 = num ∧
    skipField bytes p (tag &&& 7) = .ok bytes.length

theorem removeFieldLoop_step {data : List Nat} {f offset tag newOffset nextOffset : Nat}
    (acc : List Nat) (hlt : offset < data.length)
    (hrv : readVarint data offset = .ok (tag, newOffset))
    (hsk : skipField data newOffset (tag &&& 7) = .ok nextOffset) :
    removeFieldLoop data f offset acc =
      if (tag >>> 3) % 2 ^ 32 = f then removeFieldLoop data f nextOffset acc
      else if nextOffset ≤ data.length then
        removeFieldLoop data f nextOffset (acc ++ sliceBytes data offset nextOffset)
      else .crash := by
  rw [removeFieldLoop]
  rw [dif_pos hlt]
  split
  · next e heq => rw [hrv] at heq; cases heq
  · next heq => rw [hrv] at heq; cases heq
  · next tag' newOffset' heq =>
    rw [hrv] at heq
    cases heq
    by_cases hf : (tag >>> 3) % 2 ^ 32 = f
    · rw [if_pos hf, if_pos hf]
      split
      · next e heq2 => rw [hsk] at heq2; cases heq2
      · next heq2 => rw [hsk] at heq2; cases heq2
      · next next' heq2 => rw [hsk] at heq2; cases heq2; rfl
    · rw [if_neg hf, if_neg hf]
      split
      · next e heq2 => rw [hsk] at heq2; cases heq2
      · next heq2 => rw [hsk] at heq2; cases heq2
      · next next' heq2 => rw [hsk] at heq2; cases heq2; rfl

theorem removeFieldLoop_spec (occs : List (Nat × List Nat)) :
    ∀ (pre acc : List Nat) (f : Nat),
      (∀ o ∈ occs, ValidOcc o.1 o.2) →
      removeFieldLoop (pre ++ ((occs.map Prod.snd).flatten)) f pre.length acc
        = .ok (acc ++ (((occs.filter (fun o => o.1 != f)).map Prod.snd).flatten)) := by
  induction occs with
  | nil =>
    intro pre acc f _
    simp only [List.map_nil, List.flatten_nil, List.append_nil, List.filter_nil]
    rw [removeFieldLoop]
    simp
  | cons head rest ih =>
    obtain ⟨num, bytes⟩ := head
    intro pre acc f hv
    obtain ⟨tag, p, hrv, hnum, hsk⟩ := hv (num, bytes) (by simp)
    dsimp only at hrv hnum hsk
    have hrest : ∀ o ∈ rest, ValidOcc o.1 o.2 := fun o ho => hv o (by simp [ho])
    have hple := readVarint_ok_bounds hrv
    simp only [List.map_cons, List.flatten_cons]
    have hA : readVarint (pre ++ (bytes ++ (rest.map Prod.snd).flatten)) pre.length
        = .ok (tag, pre.length + p) := by
      have h1 := readVarint_append_right ((rest.map Prod.snd).flatten) hrv
      have h2 := readVarint_shift pre (bytes ++ (rest.map Prod.snd).flatten) 0
      rw [Nat.add_zero] at h2
      rw [h2, h1]
      simp [resShift]
    have hB : skipField (pre ++ (bytes ++ (rest.map Prod.snd).flatten)) (pre.length + p)
        (tag &&& 7) = .ok (pre.length + bytes.length) := by
      have h3 := skipField_append_right ((rest.map Prod.snd).flatten) hsk
      have h4 := skipField_shift pre (bytes ++ (rest.map Prod.snd).flatten) p (tag &&& 7)
      rw [h4, h3]
      simp [resShiftN]
    have hlt : pre.length < (pre ++ (bytes ++ (rest.map Prod.snd).flatten)).length := by
      simp
      omega
    rw [removeFieldLoop_step acc hlt hA hB, hnum]
    by_cases hnf : num = f
    · rw [if_pos hnf]
      have hassoc : pre ++ (bytes ++ (rest.map Prod.snd).flatten)
          = (pre ++ bytes) ++ (rest.map Prod.snd).flatten := by
        simp [List.append_assoc]
      have hlen2 : pre.length + bytes.length = (pre ++ bytes).length := by simp
      rw [hassoc, hlen2, ih (pre ++ bytes) acc f hrest]
      simp [List.filter_cons, hnf]
    · rw [if_neg hnf]
      rw [if_pos (by simp <;> omega : pre.length + bytes.length
        ≤ (pre ++ (bytes ++ (rest.map Prod.snd).flatten)).length)]
      have hslice : sliceBytes (pre ++ (bytes ++ (rest.map Prod.snd).flatten))
          pre.length (pre.length + bytes.length) = bytes := by
        unfold sliceBytes
        rw [List.drop_left]
        have : pre.length + bytes.length - pre.length = bytes.length := by omega
        rw [this, List.take_left]
      rw [hslice]
      have hassoc : pre ++ (bytes ++ (rest.map Prod.snd).flatten)
          = (pre ++ bytes) ++ (rest.map Prod.snd).flatten := by
        simp [List.append_assoc]
      have hlen2 : pre.length + bytes.length = (pre ++ bytes).length := by simp
      rw [hassoc, hlen2, ih (pre ++ bytes) (acc ++ bytes) f hrest]
      simp [List.filter_cons, hnf]

theorem removeFieldLoop_ok_inv {data : List Nat} {f offset : Nat} {acc res : List Nat}
    (h : removeFieldLoop data f offset acc = .ok res) :
    (¬ offset < data.length ∧ res = acc) ∨
    (∃ tag newOffset nextOffset,
      offset < data.length ∧
      readVarint data offset = .ok (tag, newOffset) ∧
      skipField data newOffset (tag &&& 7) = .ok nextOffset ∧
      (((tag >>> 3) % 2 ^ 32 = f ∧ removeFieldLoop data f nextOffset acc = .ok res) ∨
       ((tag >>> 3) % 2 ^ 32 ≠ f ∧ nextOffset ≤ data.length ∧
        removeFieldLoop data f nextOffset (acc ++ sliceBytes data offset nextOffset)
          = .ok res))) := by
  by_cases hlt : offset < data.length
  · right
    rw [removeFieldLoop, dif_pos hlt] at h
    split at h
    · next e heq => cases h
    · next heq => cases h
    · next tag newOffset heq =>
      refine ⟨tag, newOffset, ?_⟩
      by_cases hf : (tag >>> 3) % 2 ^ 32 = f
      · rw [if_pos hf] at h
        split at h
        · next e heq2 => cases h
        · next heq2 => cases h
        · next nextOffset heq2 =>
          exact ⟨nextOffset, hlt, heq, heq2, Or.inl ⟨hf, h⟩⟩
      · rw [if_neg hf] at h
        split at h
        · next e heq2 => cases h
        · next heq2 => cases h
        · next nextOffset heq2 =>
          by_cases hle : nextOffset ≤ data.length
          · rw [if_pos hle] at h
            exact ⟨nextOffset, hlt, heq, heq2, Or.inr ⟨hf, hle, h⟩⟩
          · rw [if_neg hle] at h
            cases h
  · left
    rw [removeFieldLoop, dif_neg hlt] at h
    cases h
    exact ⟨hlt, rfl⟩

theorem removeFieldLoop_complete {data : List Nat} {f : Nat} :
    ∀ offset acc res, removeFieldLoop data f offset acc = .ok res →
      ∃ occs : List (Nat × List Nat),
        res = acc ++ ((occs.map Prod.snd).flatten) ∧
        ∀ o ∈ occs, ValidOcc o.1 o.2 ∧ o.1 ≠ f := by
  suffices H : ∀ k offset acc res, data.length - offset ≤ k →
      removeFieldLoop data f offset acc = .ok res →
      ∃ occs : List (Nat × List Nat),
        res = acc ++ ((occs.map Prod.snd).flatten) ∧
        ∀ o ∈ occs, ValidOcc o.1 o.2 ∧ o.1 ≠ f by
    exact fun offset acc res h => H data.length offset acc res (by omega) h
  intro k
  induction k with
  | zero =>
    intro offset acc res hk hok
    rcases removeFieldLoop_ok_inv hok with ⟨_, rfl⟩ | ⟨_, _, _, hlt, _, _, _⟩
    · exact ⟨[], by simp, by simp⟩
    · omega
  | succ k ih =>
    intro offset acc res hk hok
    rcases removeFieldLoop_ok_inv hok with ⟨_, rfl⟩ |
      ⟨tag, no, nx, hlt, hrv, hsk, hbr⟩
    · exact ⟨[], by simp, by simp⟩
    · have hno := readVarint_ok_bounds hrv
      have hnx := skipField_ok_gt hsk
      rcases hbr with ⟨hf, hrec⟩ | ⟨hf, hle, hrec⟩
      · exact ih nx acc res (by omega) hrec
      · obtain ⟨occs, hres, hprops⟩ := ih nx _ res (by omega) hrec
        have hslicelen : (sliceBytes data offset nx).length = nx - offset := by
          unfold sliceBytes
          simp
          omega
        have hdrop : readVarint (data.drop offset) 0 = .ok (tag, no - offset) := by
          have := readVarint_drop hrv (le_refl offset)
          simpa using this
        have htake : readVarint (sliceBytes data offset nx) 0 = .ok (tag, no - offset) := by
          unfold sliceBytes
          exact readVarint_take hdrop (by omega)
        have hskdrop : skipField (data.drop offset) (no - offset) (tag &&& 7)
            = .ok (nx - offset) :=
          skipField_drop hsk (by omega) (by omega)
        have hsktake : skipField (sliceBytes data offset nx) (no - offset) (tag &&& 7)
            = .ok (nx - offset) := by
          unfold sliceBytes
          exact skipField_take hskdrop (le_refl _)
        refine ⟨((tag >>> 3) % 2 ^ 32, sliceBytes data offset nx) :: occs, ?_, ?_⟩
        · rw [hres]
          simp [List.append_assoc]
        · intro o ho
          rcases List.mem_cons.mp ho with rfl | ho
        
          · refine ⟨⟨tag, no - offset, htake, rfl, ?_⟩, hf⟩
            rw [hsktake, hslicelen]
          · exact hprops o ho

/-- `remove_field` on a buffer that is a clean concatenation of well-formed
occurrences returns exactly the non-matching occurrences, byte for byte. -/
theorem removeField_of_chunks (occs : List (Nat × List Nat)) (f : Nat)
    (hv : ∀ o ∈ occs, ValidOcc o.1 o.2) :
    removeField ((occs.map Prod.snd).flatten) f
      = .ok (((occs.filter (fun o => o.1 != f)).map Prod.snd).flatten) := by
  have := removeFieldLoop_spec occs [] [] f hv
  simpa [removeField] using this

theorem removeField_complete {data : List Nat} {f : Nat} {res : List Nat}
    (h : removeField data f = .ok res) :
    ∃ occs : List (Nat × List Nat),
      res = (occs.map Prod.snd).flatten ∧
      ∀ o ∈ occs, ValidOcc o.1 o.2 ∧ o.1 ≠ f := by
  obtain ⟨occs, hres, hprops⟩ := removeFieldLoop_complete 0 [] res h
  exact ⟨occs, by simpa using hres, hprops⟩

/-! ### Encode/decode roundtrip -/

theorem readVarintLoop_encode (v : Nat) :
    ∀ r s, s < 64 → v < 2 ^ (64 - s) → r < 2 ^ s →
      readVarintLoop (encodeVarint v) 0 r s
        = .ok (r + v * 2 ^ s, (encodeVarint v).length) := by
  induction v using encodeVarint.induct with
  | case1 v hlt =>
    intro r s hs hv hr
    rw [encodeVarint, if_pos hlt]
    rw [readVarintLoop, dif_pos (by simp : (0:Nat) < [v].length)]
    rw [if_neg (by omega : ¬ 64 ≤ s)]
    rw [show [v].getD 0 0 = v from rfl]
    rw [if_pos (and128_eq_zero_of_lt hlt)]
    rw [and127_eq_mod, Nat.mod_eq_of_lt hlt]
    have hshift_lt : v * 2 ^ s < 2 ^ 64 := by
      calc v * 2 ^ s < 2 ^ (64 - s) * 2 ^ s :=
            Nat.mul_lt_mul_of_lt_of_le hv (le_refl _) (Nat.two_pow_pos s)
        _ = 2 ^ 64 := by rw [← pow_add]; congr 1; omega
    have hmod : (v <<< s) % 2 ^ 64 = v <<< s := by
      rw [Nat.shiftLeft_eq]
      exact Nat.mod_eq_of_lt hshift_lt
    rw [hmod, lor_shiftLeft_eq_add v s hr]
    rfl
  | case2 v hge ih =>
    intro r s hs hv hr
    have hs57 : s < 57 := by
      by_contra hs57
      push_neg at hs57
      have hle : (2:Nat) ^ (64 - s) ≤ 2 ^ 7 := Nat.pow_le_pow_right (by norm_num) (by omega)
      have h128 : (2:Nat) ^ 7 = 128 := by norm_num
      omega
    have hmlt : v &&& 127 < 128 := by
      rw [and127_eq_mod]
      exact Nat.mod_lt _ (by norm_num)
    rw [encodeVarint, if_neg hge]
    rw [readVarintLoop,
      dif_pos (by simp : 0 < (((v &&& 127) ||| 128) :: encodeVarint (v >>> 7)).length)]
    rw [if_neg (by omega : ¬ 64 ≤ s)]
    rw [show (((v &&& 127) ||| 128) :: encodeVarint (v >>> 7)).getD 0 0
      = ((v &&& 127) ||| 128) from rfl]
    rw [if_neg (lor128_and128_ne_zero (v &&& 127))]
    rw [lor128_and127, Nat.and_assoc, show (127:Nat) &&& 127 = 127 from by decide]
    have hshift_lt : (v &&& 127) * 2 ^ s < 2 ^ 64 := by
      calc (v &&& 127) * 2 ^ s < 128 * 2 ^ s :=
            Nat.mul_lt_mul_of_lt_of_le hmlt (le_refl _) (Nat.two_pow_pos s)
        _ = 2 ^ (s + 7) := by rw [pow_add, show (128:Nat) = 2 ^ 7 from by norm_num]; ring
        _ ≤ 2 ^ 64 := Nat.pow_le_pow_right (by norm_num) (by omega)
    have hmod : ((v &&& 127) <<< s) % 2 ^ 64 = (v &&& 127) * 2 ^ s := by
      rw [Nat.shiftLeft_eq]
      exact Nat.mod_eq_of_lt hshift_lt
    rw [hmod, lor_mul_two_pow_eq_add _ s hr]
    have hpre := readVarintLoop_append_left [(v &&& 127) ||| 128] (encodeVarint (v >>> 7))
      0 (r + (v &&& 127) * 2 ^ s) (s + 7)
    simp only [List.singleton_append, List.length_singleton, Nat.add_zero] at hpre
    rw [show (0:Nat) + 1 = 1 from rfl]
    rw [hpre]
    have hdivlt : v >>> 7 < 2 ^ (64 - (s + 7)) := by
      rw [Nat.shiftRight_eq_div_pow]
      rw [Nat.div_lt_iff_lt_mul (Nat.two_pow_pos 7)]
      calc v < 2 ^ (64 - s) := hv
        _ = 2 ^ (64 - (s + 7)) * 2 ^ 7 := by rw [← pow_add]; congr 1; omega
    have hrlt : r + (v &&& 127) * 2 ^ s < 2 ^ (s + 7) := by
      have h1 : (2:Nat) ^ (s + 7) = 2 ^ s * 128 := by
        rw [pow_add, show (128:Nat) = 2 ^ 7 from by norm_num]
      have h2 : (v &&& 127) * 2 ^ s ≤ 127 * 2 ^ s :=
        Nat.mul_le_mul_right _ (by omega)
      have h3 : (0:Nat) < 2 ^ s := Nat.two_pow_pos s
      nlinarith
    rw [ih (r + (v &&& 127) * 2 ^ s) (s + 7) (by omega) hdivlt hrlt]
    have hval : r + (v &&& 127) * 2 ^ s + v >>> 7 * 2 ^ (s + 7) = r + v * 2 ^ s := by
      rw [Nat.shiftRight_eq_div_pow, and127_eq_mod]
      have h1 : (2:Nat) ^ (s + 7) = 2 ^ s * 2 ^ 7 := by rw [pow_add]
      rw [h1, show (2:Nat) ^ 7 = 128 from by norm_num]
      conv_rhs => rw [show v = 128 * (v / 128) + v % 128 from (Nat.div_add_mod v 128).symm]
      ring
    simp only [resShift, hval, List.length_cons]
    rw [Nat.add_comm 1 (encodeVarint (v >>> 7)).length]

theorem readVarint_encode {v : Nat} (h : v < 2 ^ 64) :
    readVarint (encodeVarint v) 0 = .ok (v, (encodeVarint v).length) := by
  have hr := readVarintLoop_encode v 0 0 (by norm_num) (by simpa using h) (by norm_num)
  simpa [readVarint] using hr

/-! ### Field builders (`create_oauth_field`, `create_email_field`,
`create_unified_token_message`) and base64 -/

/-- UTF-8 bytes of an ASCII string literal (`as_bytes()` in the source). -/
def strBytes (s : String) : List Nat :=
  s.toList.map Char.toNat

/-- The Rust cast `expiry as i64 → u64` (two's complement). -/
def i64ToU64 (x : Int) : Nat :=
  (x % (2 ^ 64 : Int)).toNat

/-- One character of the standard base64 alphabet (A-Z, a-z, 0-9, `+`, `/`)
as its ASCII code. -/
def base64Char (i : Nat) : Nat :=
  if i < 26 then 65 + i
  else if i < 52 then 97 + (i - 26)
  else if i < 62 then 48 + (i - 52)
  else if i = 62 then 43
  else 47

/-- `base64::engine::general_purpose::STANDARD.encode`: RFC 4648 standard
alphabet with `=` padding (ASCII 61), producing the ASCII bytes of the
encoded string. -/
def base64Encode : List Nat → List Nat
  | b0 :: b1 :: b2 :: rest =>
    base64Char (b0 >>> 2)
      :: base64Char (((b0 &&& 3) <<< 4) ||| (b1 >>> 4))
      :: base64Char (((b1 &&& 15) <<< 2) ||| (b2 >>> 6))
      :: base64Char (b2 &&& 63)
      :: base64Encode rest
  | [b0, b1] =>
    [base64Char (b0 >>> 2), base64Char (((b0 &&& 3) <<< 4) ||| (b1 >>> 4)),
      base64Char ((b1 &&& 15) <<< 2), 61]
  | [b0] =>
    [base64Char (b0 >>> 2), base64Char ((b0 &&& 3) <<< 4), 61, 61]
  | [] => []

/-- Fields 1-4 of the OAuthTokenInfo message as built inline by
`create_oauth_field` (protobuf.rs lines 123-169): `[field1, field2, field3,
field4].concat()` where each field is tag ++ varint length ++ payload, and
field 4 wraps a Timestamp message `{1: expiry as varint}`. -/
def oauthInfoFields (accessToken refreshToken : List Nat) (expiry : Int) : List Nat :=
  (encodeVarint ((1 <<< 3) ||| 2) ++ encodeVarint accessToken.length ++ accessToken)
    ++ (encodeVarint ((2 <<< 3) ||| 2) ++ encodeVarint (strBytes "Bearer").length
        ++ strBytes "Bearer")
    ++ (encodeVarint ((3 <<< 3) ||| 2) ++ encodeVarint refreshToken.length ++ refreshToken)
    ++ (encodeVarint ((4 <<< 3) ||| 2)
        ++ encodeVarint (encodeVarint ((1 <<< 3) ||| 0)
            ++ encodeVarint (i64ToU64 expiry)).length
        ++ (encodeVarint ((1 <<< 3) ||| 0) ++ encodeVarint (i64ToU64 expiry)))

/-- `create_oauth_field` (protobuf.rs lines 122-178): the four inner fields
wrapped as top-level length-delimited field 6. -/
def createOauthField (accessToken refreshToken : List Nat) (expiry : Int) : List Nat :=
  encodeVarint ((6 <<< 3) ||| 2)
    ++ encodeVarint (oauthInfoFields accessToken refreshToken expiry).length
    ++ oauthInfoFields accessToken refreshToken expiry

/-- `create_email_field` (protobuf.rs lines 181-187): a single
length-delimited field 2. -/
def createEmailField (email : List Nat) : List Nat :=
  encodeVarint ((2 <<< 3) ||| 2) ++ encodeVarint email.length ++ email

/-- The raw OAuthTokenInfo byte sequence rebuilt inline by
`create_unified_token_message` (protobuf.rs lines 201-248); the source
duplicates the field construction of `create_oauth_field` verbatim instead
of calling it, so this is a second, separate definition. -/
def unifiedRawInfo (accessToken refreshToken : List Nat) (expiry : Int) : List Nat :=
  (encodeVarint ((1 <<< 3) ||| 2) ++ encodeVarint accessToken.length ++ accessToken)
    ++ (encodeVarint ((2 <<< 3) ||| 2) ++ encodeVarint (strBytes "Bearer").length
        ++ strBytes "Bearer")
    ++ (encodeVarint ((3 <<< 3) ||| 2) ++ encodeVarint refreshToken.length ++ refreshToken)
    ++ (encodeVarint ((4 <<< 3) ||| 2)
        ++ encodeVarint (encodeVarint ((1 <<< 3) ||| 0)
            ++ encodeVarint (i64ToU64 expiry)).length
        ++ (encodeVarint ((1 <<< 3) ||| 0) ++ encodeVarint (i64ToU64 expiry)))

/-- `create_unified_token_message` (protobuf.rs lines 196-301): base64 the
raw OAuthTokenInfo, wrap as field 1 of a sub-message, wrap that as field 2
of an outer message whose field 1 is the sentinel string, wrap everything
as field 1 of the root. -/
def createUnifiedTokenMessage (accessToken refreshToken : List Nat) (expiry : Int) :
    List Nat :=
  let oauthInfoB64 := base64Encode (unifiedRawInfo accessToken refreshToken expiry)
  let subField1 := encodeVarint ((1 <<< 3) ||| 2)
    ++ encodeVarint oauthInfoB64.length ++ oauthInfoB64
  let subMessage := subField1
  let outerField2 := encodeVarint ((2 <<< 3) ||| 2)
    ++ encodeVarint subMessage.length ++ subMessage
  let sentinel := strBytes "oauthTokenInfoSentinelKey"
  let outerField1 := encodeVarint ((1 <<< 3) ||| 2)
    ++ encodeVarint sentinel.length ++ sentinel
  let payload := outerField1 ++ outerField2
  encodeVarint ((1 <<< 3) ||| 2) ++ encodeVarint payload.length ++ payload

/-- A length-delimited field as the specification describes one: tag
`fieldNumber << 3 | 2`, varint payload length, payload bytes.  Used only by
the specification-side reference definitions. -/
def lenDelimField (num : Nat) (payload : List Nat) : List Nat :=
  encodeVarint ((num <<< 3) ||| 2) ++ encodeVarint payload.length ++ payload

/-- `buildUnifiedTokenMessage` following the specification's words (§4.3):
unwrapped fields 1-4, base64 (standard alphabet), field 1 of an inner
wrapper, that wrapper field 2 of an outer message whose field 1 is the
sentinel string (field 1 first), the outer message wrapped as field 1 of a
root message. -/
def unifiedTokenMessageSpec (accessToken refreshToken : List Nat) (expiry : Int) :
    List Nat :=
  lenDelimField 1
    (lenDelimField 1 (strBytes "oauthTokenInfoSentinelKey")
      ++ lenDelimField 2
        (lenDelimField 1
          (base64Encode
            (lenDelimField 1 accessToken
              ++ lenDelimField 2 (strBytes "Bearer")
              ++ lenDelimField 3 refreshToken
              ++ lenDelimField 4
                (encodeVarint ((1 <<< 3) ||| 0) ++ encodeVarint (i64ToU64 expiry))))))

/-- The pure value computation of `inject_token` for the legacy key
(db.rs lines 148-184): starting from the base64-decoded blob, remove
fields 1, 2 and 6 in that order, append the new email and oauth fields,
and base64-encode the result with the standard alphabet. -/
def injectTokenLegacyValue (blob accessToken refreshToken : List Nat) (expiry : Int)
    (email : List Nat) : RRes (List Nat) :=
  match removeField blob 1 with
  | .err e => .err e
  | .crash => .crash
  | .ok c1 =>
    match removeField c1 2 with
    | .err e => .err e
    | .crash => .crash
    | .ok c2 =>
      match removeField c2 6 with
      | .err e => .err e
      | .crash => .crash
      | .ok cleanData =>
        .ok (base64Encode (cleanData ++ createEmailField email
          ++ createOauthField accessToken refreshToken expiry))

/-! ### Step lemmas for concrete evaluation of the loops -/

theorem removeFieldLoop_exit {data : List Nat} {f offset : Nat} {acc : List Nat}
    (h : ¬ offset < data.length) : removeFieldLoop data f offset acc = .ok acc := by
  rw [removeFieldLoop, dif_neg h]

theorem findFieldLoop_exit {data : List Nat} {t offset : Nat}
    (h : ¬ offset < data.length) : findFieldLoop data t offset = .ok none := by
  rw [findFieldLoop, dif_neg h]

theorem findFieldLoop_tag_err {data : List Nat} {t offset : Nat} {e : String}
    (hrv : readVarint data offset = .err e) :
    findFieldLoop data t offset = .ok none := by
  by_cases hlt : offset < data.length
  · rw [findFieldLoop, dif_pos hlt]
    split
    · rfl
    · next heq => rw [hrv] at heq; cases heq
    · next tag no heq => rw [hrv] at heq; cases heq
  · exact findFieldLoop_exit hlt

theorem findFieldLoop_found {data : List Nat} {t offset tag no l co : Nat}
    (hlt : offset < data.length)
    (hrv : readVarint data offset = .ok (tag, no))
    (hm : (tag >>> 3) % 2 ^ 32 = t ∧ tag &&& 7 = 2)
    (hl : readVarint data no = .ok (l, co)) :
    findFieldLoop data t offset =
      if co + l ≤ data.length then .ok (some (sliceBytes data co (co + l)))
      else .crash := by
  rw [findFieldLoop, dif_pos hlt]
  split
  · next e heq => rw [hrv] at heq; cases heq
  · next heq => rw [hrv] at heq; cases heq
  · next tag' no' heq =>
    rw [hrv] at heq
    cases heq
    rw [if_pos hm]
    split
    · next e heq2 => rw [hl] at heq2; cases heq2
    · next heq2 => rw [hl] at heq2; cases heq2
    · next l' co' heq2 =>
      rw [hl] at heq2
      cases heq2
      rfl

theorem findFieldLoop_skip {data : List Nat} {t offset tag no nx : Nat}
    (hlt : offset < data.length)
    (hrv : readVarint data offset = .ok (tag, no))
    (hm : ¬ ((tag >>> 3) % 2 ^ 32 = t ∧ tag &&& 7 = 2))
    (hsk : skipField data no (tag &&& 7) = .ok nx) :
    findFieldLoop data t offset = findFieldLoop data t nx := by
  rw [findFieldLoop, dif_pos hlt]
  split
  · next e heq => rw [hrv] at heq; cases heq
  · next heq => rw [hrv] at heq; cases heq
  · next tag' no' heq =>
    rw [hrv] at heq
    cases heq
    rw [if_neg hm]
    split
    · next e heq2 => rw [hsk] at heq2; cases heq2
    · next heq2 => rw [hsk] at heq2; cases heq2
    · next nx' heq2 =>
      rw [hsk] at heq2
      cases heq2
      rfl

theorem findFieldLoop_skip_err {data : List Nat} {t offset tag no : Nat} {e : String}
    (hlt : offset < data.length)
    (hrv : readVarint data offset = .ok (tag, no))
    (hm : ¬ ((tag >>> 3) % 2 ^ 32 = t ∧ tag &&& 7 = 2))
    (hsk : skipField data no (tag &&& 7) = .err e) :
    findFieldLoop data t offset = .err e := by
  rw [findFieldLoop, dif_pos hlt]
  split
  · next e' heq => rw [hrv] at heq; cases heq
  · next heq => rw [hrv] at heq; cases heq
  · next tag' no' heq =>
    rw [hrv] at heq
    cases heq
    rw [if_neg hm]
    split
    · next e' heq2 => rw [hsk] at heq2; cases heq2; rfl
    · next heq2 => rw [hsk] at heq2; cases heq2
    · next nx' heq2 => rw [hsk] at heq2; cases heq2

/-! ### OAuth flow preparation (oauth_server.rs) -/

/-- The entry stored in the global `OAUTH_FLOW_STATE` (oauth_server.rs
lines 9-17).  The channel senders are abstracted to numeric identities;
`rxAvailable` models `code_rx.is_some()` (the receiving end has not yet
been taken by a waiter). -/
structure OAuthFlowState where
  authUrl : String
  redirectUri : String
  csrfState : String
  cancelChan : Nat
  codeChan : Nat
  rxAvailable : Bool
deriving DecidableEq, Repr

/-- Observable side effects of `ensure_oauth_flow_prepared`. -/
inductive PrepEffect where
  /-- `cancel_tx.send(true)` to a stale flow (line 57). -/
  | cancelOldFlow : PrepEffect
  /-- the listener-binding section runs (lines 63-111 bind the sockets,
  lines 136-328 spawn the accept tasks). -/
  | bindListeners : PrepEffect
deriving DecidableEq, Repr

/-- Control flow of `ensure_oauth_flow_prepared` (oauth_server.rs lines
46-349) as a pure state transition.  The IO-dependent fresh-preparation
path (socket binding, UUID generation, URL construction, channel creation)
is abstracted by the oracle `fresh`: the state it would store on success,
or the bind error.  Output: the stored state after the call, the returned
result, and the list of effects performed.  When the stored state is
`some s` with `s.rxAvailable` the source returns `Ok(s.auth_url.clone())`
at line 53, before any cancellation or binding. -/
def ensureOauthFlowPrepared (st : Option OAuthFlowState)
    (fresh : Except String OAuthFlowState) :
    Option OAuthFlowState × Except String String × List PrepEffect :=
  match st with
  | some s =>
    if s.rxAvailable then (some s, .ok s.authUrl, [])
    else
      match fresh with
      | .ok ns => (some ns, .ok ns.authUrl, [.cancelOldFlow, .bindListeners])
      | .error e => (none, .error e, [.cancelOldFlow, .bindListeners])
  | none =>
    match fresh with
    | .ok ns => (some ns, .ok ns.authUrl, [.bindListeners])
    | .error e => (none, .error e, [.bindListeners])

/-! ### The builder outputs are well-formed occurrences -/

theorem readVarint_single {t : Nat} (ht : t < 128) :
    readVarint [t] 0 = .ok (t, 1) := by
  rw [readVarint, readVarintLoop, dif_pos (by simp)]
  rw [if_neg (by norm_num)]
  rw [show [t].getD 0 0 = t from rfl]
  rw [if_pos (and128_eq_zero_of_lt ht)]
  rw [and127_eq_mod, Nat.mod_eq_of_lt ht, Nat.shiftLeft_zero,
    Nat.mod_eq_of_lt (by omega : t < 2 ^ 64)]
  simp

theorem validOcc_singleByteTag2 (t : Nat) (payload : List Nat)
    (ht : t < 128) (hw : t &&& 7 = 2) (hp : payload.length < 2 ^ 64) :
    ValidOcc ((t >>> 3) % 2 ^ 32) ([t] ++ encodeVarint payload.length ++ payload) := by
  have h1 := readVarint_single ht
  have h2 : readVarint ([t] ++ encodeVarint payload.length ++ payload) 0 = .ok (t, 1) :=
    readVarint_append_right _ (readVarint_append_right _ h1)
  refine ⟨t, 1, h2, rfl, ?_⟩
  have h3 : readVarint ([t] ++ encodeVarint payload.length ++ payload) 1
      = .ok (payload.length, 1 + (encodeVarint payload.length).length) := by
    have h4 := readVarint_encode hp
    have h6 := readVarint_shift [t] (encodeVarint payload.length) 0
    simp only [List.length_singleton, Nat.add_zero] at h6
    rw [h4] at h6
    have h7 : readVarint ([t] ++ encodeVarint payload.length) 1
        = .ok (payload.length, 1 + (encodeVarint payload.length).length) := by
      simpa [resShift] using h6
    exact readVarint_append_right payload h7
  rw [hw, skipField, if_neg (by norm_num), if_neg (by norm_num), if_pos rfl]
  simp only [h3]
  have hlen : ([t] ++ encodeVarint payload.length ++ payload).length
      = 1 + (encodeVarint payload.length).length + payload.length := by
    simp <;> omega
  rw [hlen]

theorem validOcc_createEmailField (email : List Nat) (h : email.length < 2 ^ 64) :
    ValidOcc 2 (createEmailField email) := by
  have htag : encodeVarint ((2 <<< 3) ||| 2) = [(2 <<< 3) ||| 2] := by
    rw [encodeVarint, if_pos (by decide)]
  have hg := validOcc_singleByteTag2 ((2 <<< 3) ||| 2) email (by decide) (by decide) h
  rw [show ((((2 <<< 3) ||| 2 : Nat)) >>> 3) % 2 ^ 32 = 2 from by decide] at hg
  rw [createEmailField, htag]
  exact hg

theorem validOcc_createOauthField (accessToken refreshToken : List Nat) (expiry : Int)
    (h : (oauthInfoFields accessToken refreshToken expiry).length < 2 ^ 64) :
    ValidOcc 6 (createOauthField accessToken refreshToken expiry) := by
  have htag : encodeVarint ((6 <<< 3) ||| 2) = [(6 <<< 3) ||| 2] := by
    rw [encodeVarint, if_pos (by decide)]
  have hg := validOcc_singleByteTag2 ((6 <<< 3) ||| 2)
    (oauthInfoFields accessToken refreshToken expiry) (by decide) (by decide) h
  rw [show ((((6 <<< 3) ||| 2 : Nat)) >>> 3) % 2 ^ 32 = 6 from by decide] at hg
  rw [createOauthField, htag]
  exact hg

/-! ### The claims -/

/-- C1: for every buffer that scans cleanly into complete well-formed field
occurrences and every field number, `remove_field` returns `Ok` of exactly
the byte-for-byte concatenation, in original order, of the occurrences
whose decoded field number differs from the target; occurrences whose
field number matches (any wire type) are omitted, and the bytes of
non-matching occurrences are never altered. -/
theorem claim_C1_removeField_filters_occurrences (data : List Nat)
    (occs : List (Nat × List Nat)) (fieldNum : Nat)
    (hdata : data = (occs.map Prod.snd).flatten)
    (hocc : ∀ o ∈ occs, ValidOcc o.1 o.2) :
    removeField data fieldNum
      = .ok (((occs.filter (fun o => o.1 != fieldNum)).map Prod.snd).flatten) := by
  subst hdata
  exact removeField_of_chunks occs fieldNum hocc

theorem claim_C1_witness :
    removeField [8, 1, 18, 1, 65, 50, 2, 8, 1, 61, 1, 2, 3, 4] 6
      = .ok [8, 1, 18, 1, 65, 61, 1, 2, 3, 4] := by
  have hocc : ∀ o ∈ ([(1, [8, 1]), (2, [18, 1, 65]), (6, [50, 2, 8, 1]),
      (7, [61, 1, 2, 3, 4])] : List (Nat × List Nat)), ValidOcc o.1 o.2 := by
    intro o ho
    simp only [List.mem_cons, List.not_mem_nil, or_false] at ho
    rcases ho with rfl | rfl | rfl | rfl
    · exact ⟨8, 1, by simp +decide [readVarint, readVarintLoop], by decide,
        by simp +decide [skipField, readVarint, readVarintLoop]⟩
    · exact ⟨18, 1, by simp +decide [readVarint, readVarintLoop], by decide,
        by simp +decide [skipField, readVarint, readVarintLoop]⟩
    · exact ⟨50, 1, by simp +decide [readVarint, readVarintLoop], by decide,
        by simp +decide [skipField, readVarint, readVarintLoop]⟩
    · exact ⟨61, 1, by simp +decide [readVarint, readVarintLoop], by decide,
        by simp +decide [skipField, readVarint, readVarintLoop]⟩
  have h := claim_C1_removeField_filters_occurrences _ _ 6 rfl hocc
  simpa +decide using h

/-- C2 (code bug): on the two-byte buffer `[0x0A, 0x05]` — a field-1 tag of
wire type 2 whose declared length 5 runs past the end of the buffer — both
`remove_field` (removing the non-matching field 2, which must copy the
occurrence through) and `find_field` (looking up field 1) slice out of
bounds and panic instead of returning a typed error. -/
theorem claim_C2_truncated_field_panics :
    removeField [10, 5] 2 = .crash ∧ findField [10, 5] 1 = .crash := by
  have h1 : readVarint [10, 5] 0 = .ok (10, 1) := by
    simp +decide [readVarint, readVarintLoop]
  have h2 : readVarint [10, 5] 1 = .ok (5, 2) := by
    simp +decide [readVarint, readVarintLoop]
  have h3 : skipField [10, 5] 1 (10 &&& 7) = .ok 7 := by
    rw [show (10:Nat) &&& 7 = 2 from by decide]
    rw [skipField, if_neg (by norm_num), if_neg (by norm_num), if_pos rfl]
    simp only [h2]
  constructor
  · rw [removeField, removeFieldLoop_step [] (by norm_num) h1 h3]
    rw [if_neg (by decide), if_neg (by decide)]
  · rw [findField, findFieldLoop_found (by norm_num) h1 (by decide) h2]
    rw [if_neg (by decide)]

/-- C3 (counterexample): `find_field` is not error-free — on the buffer
`[0x03]`, whose single tag has the unsupported wire type 3, skipping the
non-matching field propagates `unknown_wire_type` as an error instead of
returning `None`. -/
theorem claim_C3_counterexample_error_propagates :
    findField [3] 1 = .err "unknown_wire_type: 3" := by
  have h1 : readVarint [3] 0 = .ok (3, 1) := by
    simp +decide [readVarint, readVarintLoop]
  have h2 : skipField [3] 1 (3 &&& 7) = .err "unknown_wire_type: 3" := by
    rw [show (3:Nat) &&& 7 = 3 from by decide]
    rw [skipField, if_neg (by norm_num), if_neg (by norm_num), if_neg (by norm_num),
      if_neg (by norm_num)]
    rfl
  rw [findField, findFieldLoop_skip_err (by norm_num) h1 (by decide) h2]

/-- C3 (amended): `find_field` returns `Ok(None)` when the *tag* varint
cannot be read (the `break` in the scan loop); malformed bytes encountered
while skipping a non-matching field, or while reading a matching field's
length, are propagated as errors instead. -/
theorem claim_C3_amended_lenient_tag_only (data : List Nat) (t : Nat) (e : String)
    (h : readVarint data 0 = .err e) : findField data t = .ok none :=
  findFieldLoop_tag_err h

theorem claim_C3_witness :
    readVarint [128] 0 = .err "incomplete_data" ∧ findField [128] 5 = .ok none := by
  have h : readVarint [128] 0 = .err "incomplete_data" := by
    simp +decide [readVarint, readVarintLoop]
  exact ⟨h, claim_C3_amended_lenient_tag_only [128] 5 _ h⟩

/-- C4 (code bug): `read_varint` has no ten-group cap and no
malformed-varint error.  On ten continuation bytes followed by a
terminator, the eleventh group is read with shift 70, so the Rust
expression `(byte & 0x7F) << shift` overflows the 64-bit shift — a panic
under overflow checks (a garbage value in release builds) — instead of the
claimed `MalformedVarint` error. -/
theorem claim_C4_no_ten_group_cap :
    readVarint [128, 128, 128, 128, 128, 128, 128, 128, 128, 128, 1] 0 = .crash := by
  simp +decide [readVarint, readVarintLoop]

/-- C5: `create_unified_token_message` produces exactly the nesting the
specification describes: the unwrapped OAuthTokenInfo fields 1-4 are
base64-encoded with the standard alphabet, placed as field 1 of an inner
wrapper, which becomes field 2 of an outer message whose field 1 is the
literal sentinel string (field 1 preceding field 2), and the outer message
is wrapped again as field 1 of a root message. -/
theorem claim_C5_unified_message_structure (accessToken refreshToken : List Nat)
    (expiry : Int) :
    createUnifiedTokenMessage accessToken refreshToken expiry
      = unifiedTokenMessageSpec accessToken refreshToken expiry := by
  simp [createUnifiedTokenMessage, unifiedTokenMessageSpec, lenDelimField,
    unifiedRawInfo, List.append_assoc]

/-- C7: when a flow is already stored and its result channel has not been
taken, a second `ensure_oauth_flow_prepared` returns the identical
authorization URL, stores the identical state, and performs no effect — in
particular it does not bind new listening sockets. -/
theorem claim_C7_prepare_idempotent_when_fresh (s : OAuthFlowState)
    (fresh : Except String OAuthFlowState) (h : s.rxAvailable = true) :
    ensureOauthFlowPrepared (some s) fresh = (some s, .ok s.authUrl, []) := by
  simp [ensureOauthFlowPrepared, h]

theorem claim_C7_witness :
    ensureOauthFlowPrepared
        (some ⟨"https://auth.example/u", "http://localhost:1", "csrf", 0, 0, true⟩)
        (.error "bind_failed")
      = (some ⟨"https://auth.example/u", "http://localhost:1", "csrf", 0, 0, true⟩,
          .ok "https://auth.example/u", []) :=
  claim_C7_prepare_idempotent_when_fresh _ _ rfl

/-- C8: decoding inverts encoding — for every `u64` value `v`,
`read_varint(encode_varint(v), 0)` returns `Ok((v, L))` where `L` is the
length of the encoding (7-bit groups, LSB first, bit 7 set on all bytes
but the last). -/
theorem claim_C8_varint_roundtrip (v : Nat) (h : v < 2 ^ 64) :
    readVarint (encodeVarint v) 0 = .ok (v, (encodeVarint v).length) :=
  readVarint_encode h

theorem claim_C8_witness :
    (16383 : Nat) < 2 ^ 64
      ∧ readVarint (encodeVarint 16383) 0 = .ok (16383, (encodeVarint 16383).length) :=
  ⟨by norm_num, claim_C8_varint_roundtrip 16383 (by norm_num)⟩

/-- C9: `remove_field` is idempotent — if `remove_field(b, n)` succeeds
with `b'`, then `remove_field(b', n)` succeeds and returns `b'`
unchanged. -/
theorem claim_C9_removeField_idempotent {b : List Nat} {n : Nat} {b' : List Nat}
    (h : removeField b n = .ok b') : removeField b' n = .ok b' := by
  obtain ⟨occs, rfl, hprops⟩ := removeField_complete h
  have hsound := removeField_of_chunks occs n (fun o ho => (hprops o ho).1)
  have hfilter : occs.filter (fun o => o.1 != n) = occs :=
    List.filter_eq_self.mpr (fun o ho => by simpa using (hprops o ho).2)
  rw [hsound, hfilter]

theorem claim_C9_witness :
    removeField [8, 1] 1 = .ok [] ∧ removeField ([] : List Nat) 1 = .ok [] := by
  have h1 : readVarint [8, 1] 0 = .ok (8, 1) := by
    simp +decide [readVarint, readVarintLoop]
  have h2 : skipField [8, 1] 1 (8 &&& 7) = .ok 2 := by
    rw [show (8:Nat) &&& 7 = 0 from by decide]
    rw [skipField, if_pos rfl]
    simp only [show readVarint [8, 1] 1 = .ok (1, 2) from
      by simp +decide [readVarint, readVarintLoop]]
  have hr : removeField [8, 1] 1 = .ok [] := by
    rw [removeField, removeFieldLoop_step [] (by norm_num) h1 h2, if_pos (by decide)]
    exact removeFieldLoop_exit (by norm_num)
  exact ⟨hr, claim_C9_removeField_idempotent hr⟩

/-- C10: the length-delimited payload inside the field-6 wrapper built by
`create_oauth_field` is byte-for-byte the raw OAuthTokenInfo sequence that
`create_unified_token_message` base64-encodes into its inner field 1
(`unifiedRawInfo`): the two builders encode the four inner fields
identically. -/
theorem claim_C10_shared_inner_encoding (accessToken refreshToken : List Nat)
    (expiry : Int) :
    createOauthField accessToken refreshToken expiry
      = encodeVarint ((6 <<< 3) ||| 2)
        ++ encodeVarint (unifiedRawInfo accessToken refreshToken expiry).length
        ++ unifiedRawInfo accessToken refreshToken expiry := by
  have h : oauthInfoFields accessToken refreshToken expiry
      = unifiedRawInfo accessToken refreshToken expiry := rfl
  rw [createOauthField, h]

/-- C6: the legacy-blob edit of `inject_token` computes, from the decoded
old blob, `remove_field(_, 1)`, then `remove_field(_, 2)`, then
`remove_field(_, 6)` in that order, appends the email field built by
`create_email_field` followed by the oauth field built by
`create_oauth_field`, and base64-encodes the result with the standard
alphabet; the merged buffer decomposes into well-formed occurrences none
of which carries field number 1 (the user id is never re-added). -/
theorem claim_C6_inject_token_legacy_pipeline
    (blob accessToken refreshToken email : List Nat) (expiry : Int)
    (c1 c2 c3 : List Nat)
    (h1 : removeField blob 1 = .ok c1)
    (h2 : removeField c1 2 = .ok c2)
    (h3 : removeField c2 6 = .ok c3)
    (hem : email.length < 2 ^ 64)
    (hoa : (oauthInfoFields accessToken refreshToken expiry).length < 2 ^ 64) :
    injectTokenLegacyValue blob accessToken refreshToken expiry email
      = .ok (base64Encode (c3 ++ createEmailField email
          ++ createOauthField accessToken refreshToken expiry))
    ∧ ∃ occs : List (Nat × List Nat),
        c3 ++ createEmailField email ++ createOauthField accessToken refreshToken expiry
          = (occs.map Prod.snd).flatten
        ∧ ∀ o ∈ occs, ValidOcc o.1 o.2 ∧ o.1 ≠ 1 := by
  constructor
  · simp only [injectTokenLegacyValue, h1, h2, h3]
  · obtain ⟨occs1, hc1, hp1⟩ := removeField_complete h1
    subst hc1
    have hs2 := removeField_of_chunks occs1 2 (fun o ho => (hp1 o ho).1)
    have hc2 : c2 = (((occs1.filter (fun o => o.1 != 2)).map Prod.snd).flatten) := by
      injection h2.symm.trans hs2
    subst hc2
    have hp2 : ∀ o ∈ occs1.filter (fun o => o.1 != 2), ValidOcc o.1 o.2 ∧ o.1 ≠ 1 :=
      fun o ho => hp1 o (List.mem_of_mem_filter ho)
    have hs3 := removeField_of_chunks (occs1.filter (fun o => o.1 != 2)) 6
      (fun o ho => (hp2 o ho).1)
    have hc3 : c3 = ((((occs1.filter (fun o => o.1 != 2)).filter
        (fun o => o.1 != 6)).map Prod.snd).flatten) := by
      injection h3.symm.trans hs3
    subst hc3
    have hp3 : ∀ o ∈ (occs1.filter (fun o => o.1 != 2)).filter (fun o => o.1 != 6),
        ValidOcc o.1 o.2 ∧ o.1 ≠ 1 :=
      fun o ho => hp2 o (List.mem_of_mem_filter ho)
    refine ⟨(occs1.filter (fun o => o.1 != 2)).filter (fun o => o.1 != 6)
        ++ [(2, createEmailField email),
            (6, createOauthField accessToken refreshToken expiry)], ?_, ?_⟩
    · simp [List.append_assoc]
    · intro o ho
      rcases List.mem_append.mp ho with ho' | ho'
      · exact hp3 o ho'
      · simp only [List.mem_cons, List.not_mem_nil, or_false] at ho'
        rcases ho' with rfl | rfl
        · exact ⟨validOcc_createEmailField email hem, by norm_num⟩
        · exact ⟨validOcc_createOauthField accessToken refreshToken expiry hoa, by norm_num⟩

theorem claim_C6_witness :
    injectTokenLegacyValue [] [65] [66] 0 [67]
      = .ok (base64Encode (([] : List Nat) ++ createEmailField [67]
          ++ createOauthField [65] [66] 0))
    ∧ ∃ occs : List (Nat × List Nat),
        ([] : List Nat) ++ createEmailField [67] ++ createOauthField [65] [66] 0
          = (occs.map Prod.snd).flatten
        ∧ ∀ o ∈ occs, ValidOcc o.1 o.2 ∧ o.1 ≠ 1 :=
  claim_C6_inject_token_legacy_pipeline [] [65] [66] [67] 0 [] [] []
    (removeFieldLoop_exit (by norm_num))
    (removeFieldLoop_exit (by norm_num))
    (removeFieldLoop_exit (by norm_num))
    (by decide)
    (by simp +decide [oauthInfoFields, strBytes, i64ToU64, encodeVarint])
